import Mathlib

/-!
Shallow embedding of the putaway-inspection sampling generator
(the file named 前一日上架盘点表(全美适用).py).

A pandas row of the uploaded source table is modelled as a `TaskRecord`;
a dataframe is a `List TaskRecord` together with (where the schema check
matters) the list of its column labels.  `pd.to_numeric(..., coerce)` is
modelled by storing the quantity as an `Option Int` (`none` = NaN, i.e.
unparsable).  A missing (NaN) operator cell is `none`.  Pandas
`.str.strip()` is modelled by `stripStr`, Python string comparison by
`lexLeb` (codepoint-lexicographic), a stable ascending sort by
`insertionSortB`, and the seeded numpy generator by a concrete
linear-congruential stand-in threaded through the run exactly as the
single `rng` object is in the Python code.
-/

namespace PutawayCheck

/-- One row of the uploaded source table (前一日上架结果表). -/
structure TaskRecord where
  operation_type : String
  zone_id : String
  quantity : Option Int
  location_code : String
  operator_id : Option String
deriving DecidableEq, Repr

/-- Model of pandas `.str.strip()` / Python `str.strip`: drop leading and
trailing whitespace characters. -/
def stripStr (s : String) : String :=
  ⟨((s.data.dropWhile Char.isWhitespace).reverse.dropWhile Char.isWhitespace).reverse⟩

/-- Codepoint-lexicographic comparison of character lists, the order Python
uses to compare strings. -/
def lexLeb : List Char → List Char → Bool
  | [], _ => true
  | _ :: _, [] => false
  | a :: as, b :: bs =>
      if a.toNat = b.toNat then lexLeb as bs else decide (a.toNat < b.toNat)

/-- Python string `<=`, used by `sort_values` on the 上架员 column. -/
def strLe (a b : String) : Bool := lexLeb a.data b.data

/-- Insert into a sorted list, keeping the new element in front of equals
(stable). -/
def insertSorted (le : α → α → Bool) (a : α) : List α → List α
  | [] => [a]
  | b :: l => if le a b then a :: b :: l else b :: insertSorted le a l

/-- Stable ascending sort, modelling pandas `sort_values`. -/
def insertionSortB (le : α → α → Bool) : List α → List α
  | [] => []
  | a :: l => insertSorted le a (insertionSortB le l)

/-- The five required columns of `clean_source_data`, in source order. -/
def requiredColumns : List String := ["作业类型", "储区号", "上架量", "储位编码", "上架员"]

/-- Row passes the quantity filter: `notna ∧ quantity ≤ qty_limit`. -/
def qtyOk (qty_limit : Int) (r : TaskRecord) : Bool :=
  match r.quantity with
  | some q => decide (q ≤ qty_limit)
  | none => false

/-- 步骤一 `clean_source_data`: schema check, then the fixed filters
(作业类型 == 采购进货, 储区号 != R, 上架量 parses and ≤ limit), then the
location codes are stripped, then (only when the exclusion set is
non-empty) rows whose stripped location code is excluded are dropped.
The `ValueError` raised on missing columns becomes `Except.error` carrying
the list of missing column names. -/
def clean_source_data (cols : List String) (df : List TaskRecord)
    (excluded_locations : List String) (qty_limit : Int) :
    Except (List String) (List TaskRecord) :=
  let missing := requiredColumns.filter (fun c => !(cols.contains c))
  if missing.isEmpty then
    let out1 := df.filter (fun r => r.operation_type == "采购进货")
    let out2 := out1.filter (fun r => r.zone_id != "R")
    let out3 := out2.filter (qtyOk qty_limit)
    let out4 := out3.map (fun r => { r with location_code := stripStr r.location_code })
    let out5 := if excluded_locations.isEmpty then out4
                else out4.filter (fun r => !(excluded_locations.contains r.location_code))
    Except.ok out5
  else
    Except.error missing

/-- `drop_duplicates` keeping the first occurrence of each value. -/
def dropDuplicatesFirst : List String → List String
  | [] => []
  | a :: l => a :: (dropDuplicatesFirst l).filter (fun b => b != a)

/-- 步骤二 `create_check_table`: distinct non-missing 上架员 values, minus
the single blacklisted account, sorted ascending.  The result is the first
column of the check table, modelled as the list of group names. -/
def create_check_table (df_clean : List TaskRecord) : List String :=
  let ops := df_clean.filterMap (fun r => r.operator_id)
  let distinct := dropDuplicatesFirst ops
  let kept := distinct.filter (fun u => u != "xiao.han.1@jd.com")
  insertionSortB strLe kept

/-- One step of the 64-bit linear-congruential stand-in for
`np.random.default_rng(seed)`. -/
def rngNext (g : Nat) : Nat :=
  (6364136223846793005 * g + 1442695040888963407) % 18446744073709551616

/-- Stand-in for `rng.choice(arr, size=n, replace=False)`: draw `n`
pairwise-distinct positions of `arr` (all of `arr` when `n` exceeds its
length), returning the drawn values and the advanced generator state. -/
def choiceNoReplace : Nat → List Nat → Nat → List Nat × Nat
  | g, _, 0 => ([], g)
  | g, arr, n + 1 =>
      if h : arr.length = 0 then ([], g)
      else
        let i := g % arr.length
        let pick := arr.get ⟨i, Nat.mod_lt g (Nat.pos_of_ne_zero h)⟩
        let next := choiceNoReplace (rngNext g) (arr.eraseIdx i) n
        (pick :: next.1, next.2)

/-- The eligibility mask of 步骤三: the row's 上架员 differs from the
current group (a NaN operator differs from every group), and, when the
exclusion set is non-empty, the row's stripped 储位编码 is not excluded. -/
def eligibleFor (excluded_locations : List String) (user : String) (r : TaskRecord) : Bool :=
  (r.operator_id != some user) &&
    (if excluded_locations.isEmpty then true
     else !(excluded_locations.contains (stripStr r.location_code)))

/-- `eligible.set_index("_row_id").loc[id]` followed by `str.strip()`:
the stripped location code of the row with the given `_row_id`. -/
def lookupLoc (eligible : List (Nat × TaskRecord)) (id : Nat) : String :=
  match eligible.lookup id with
  | some r => stripStr r.location_code
  | none => ""

/-- One row of the sampling result: the group and its k 储位编码 slots
(`none` = the cell stayed `None`). -/
structure SampleRow where
  user : String
  slots : List (Option String)
deriving DecidableEq, Repr

/-- The body of the per-group loop of `sample_locations_to_check_table`
for a single group: filter the eligible rows of the current pool, draw
`min k |eligible|` of them without replacement, record the shortage, and
remove the drawn rows from the pool. -/
structure StepResult where
  slots : List (Option String)
  drawnIds : List Nat
  shortage : Option (String × Nat)
  pool : List (Nat × TaskRecord)
  rng : Nat

def sampleStep (excluded_locations : List String) (k : Nat)
    (pool : List (Nat × TaskRecord)) (g : Nat) (user : String) : StepResult :=
  let eligible := pool.filter (fun p => eligibleFor excluded_locations user p.2)
  if eligible.isEmpty then
    ⟨List.replicate k none, [], some (user, 0), pool, g⟩
  else
    let n := min k eligible.length
    let drawn := choiceNoReplace g (eligible.map Prod.fst) n
    let locs := drawn.1.map (lookupLoc eligible)
    ⟨locs.map some ++ List.replicate (k - n) none,
     drawn.1,
     if n < k then some (user, n) else none,
     pool.filter (fun p => !(drawn.1.contains p.1)),
     drawn.2⟩

/-- The per-group loop of 步骤三, threading the shrinking pool and the one
generator state through the roster. -/
def sampleLoop (excluded_locations : List String) (k : Nat) :
    List String → List (Nat × TaskRecord) → Nat → List SampleRow × List (String × Nat)
  | [], _, _ => ([], [])
  | user :: rest, pool, g =>
      let st := sampleStep excluded_locations k pool g user
      let next := sampleLoop excluded_locations k rest st.pool st.rng
      (⟨user, st.slots⟩ :: next.1, st.shortage.toList ++ next.2)

/-- 步骤三 `sample_locations_to_check_table`: the pool is the cleaned table
with `_row_id` equal to the row position, each roster entry draws in turn,
and the shortage table is sorted ascending by 实际抽样条数. -/
def sample_locations_to_check_table (df_clean : List TaskRecord) (check_table : List String)
    (excluded_locations : List String) (k : Nat) (seed : Nat) :
    List SampleRow × List (String × Nat) :=
  let pool := df_clean.enum
  let run := sampleLoop excluded_locations k check_table pool seed
  (run.1, insertionSortB (fun a b => decide (a.2 ≤ b.2)) run.2)

/-- 步骤四 `add_inventory_content_column`: per group, join the non-missing,
non-blank slot values with a comma into the 盘点内容列; every other column
of the row is kept as is. -/
def add_inventory_content_column (result : List SampleRow) : List (SampleRow × String) :=
  result.map (fun row =>
    (row, String.intercalate ","
      ((row.slots.filterMap id).filter (fun s => !(stripStr s == "")))))

/-- Number of filled 储位编码 cells of a row. -/
def filledCount (slots : List (Option String)) : Nat := (slots.filterMap id).length

/-- The `_row_id`s drawn for each roster entry, in roster order. -/
def drawnTrace (excluded_locations : List String) (k : Nat) :
    List String → List (Nat × TaskRecord) → Nat → List (List Nat)
  | [], _, _ => []
  | user :: rest, pool, g =>
      let st := sampleStep excluded_locations k pool g user
      st.drawnIds :: drawnTrace excluded_locations k rest st.pool st.rng

/-- The pool and generator state after one group's turn. -/
def stepPoolRng (excluded_locations : List String) (k : Nat)
    (st : List (Nat × TaskRecord) × Nat) (user : String) : List (Nat × TaskRecord) × Nat :=
  let r := sampleStep excluded_locations k st.1 st.2 user
  (r.pool, r.rng)

/-- The pool and generator state at the turn of the group at position `i`. -/
def stateAt (excluded_locations : List String) (k : Nat) (users : List String)
    (pool : List (Nat × TaskRecord)) (g : Nat) (i : Nat) : List (Nat × TaskRecord) × Nat :=
  (users.take i).foldl (stepPoolRng excluded_locations k) (pool, g)

/-- The stripped location code of the row at position `id` of the cleaned
table (the row a drawn `_row_id` refers to). -/
def codeAt (df_clean : List TaskRecord) (id : Nat) : String :=
  match df_clean.get? id with
  | some r => stripStr r.location_code
  | none => ""

/-! ### Generic list helpers -/

theorem contains_iff_mem {α} [BEq α] [LawfulBEq α] (l : List α) (a : α) :
    l.contains a = true ↔ a ∈ l :=
  List.elem_iff

theorem insertSorted_perm (le : α → α → Bool) (a : α) :
    ∀ l : List α, (insertSorted le a l).Perm (a :: l)
  | [] => List.Perm.refl _
  | b :: t => by
      unfold insertSorted
      by_cases h : le a b = true
      · simp [h]
      · simp only [h, if_neg, Bool.not_eq_true]
        exact ((insertSorted_perm le a t).cons b).trans (List.Perm.swap a b t)

theorem insertionSortB_perm (le : α → α → Bool) :
    ∀ l : List α, (insertionSortB le l).Perm l
  | [] => List.Perm.refl _
  | a :: t =>
      (insertSorted_perm le a (insertionSortB le t)).trans
        ((insertionSortB_perm le t).cons a)

theorem mem_insertionSortB (le : α → α → Bool) (l : List α) (x : α) :
    x ∈ insertionSortB le l ↔ x ∈ l :=
  (insertionSortB_perm le l).mem_iff

theorem nodup_insertionSortB (le : α → α → Bool) (l : List α) (h : l.Nodup) :
    (insertionSortB le l).Nodup :=
  (insertionSortB_perm le l).nodup_iff.mpr h

theorem pairwise_insertSorted (le : α → α → Bool)
    (htrans : ∀ a b c, le a b = true → le b c = true → le a c = true)
    (htot : ∀ a b, le a b = true ∨ le b a = true) (a : α) :
    ∀ l : List α, List.Pairwise (fun x y => le x y = true) l →
      List.Pairwise (fun x y => le x y = true) (insertSorted le a l)
  | [], _ => List.pairwise_singleton _ a
  | b :: t, h => by
      rcases List.pairwise_cons.mp h with ⟨hb, ht⟩
      unfold insertSorted
      by_cases hab : le a b = true
      · simp only [hab, if_true]
        refine List.pairwise_cons.mpr ⟨?_, h⟩
        intro x hx
        rcases List.mem_cons.mp hx with rfl | hx
        · exact hab
        · exact htrans a b x hab (hb x hx)
      · simp only [hab, if_false]
        refine List.pairwise_cons.mpr ⟨?_, pairwise_insertSorted le htrans htot a t ht⟩
        intro x hx
        rcases List.mem_cons.mp ((insertSorted_perm le a t).mem_iff.mp hx) with rfl | hx
        · rcases htot x b with hxb | hbx
          · exact absurd hxb hab
          · exact hbx
        · exact hb x hx

theorem pairwise_insertionSortB (le : α → α → Bool)
    (htrans : ∀ a b c, le a b = true → le b c = true → le a c = true)
    (htot : ∀ a b, le a b = true ∨ le b a = true) :
    ∀ l : List α, List.Pairwise (fun x y => le x y = true) (insertionSortB le l)
  | [] => List.Pairwise.nil
  | a :: t =>
      pairwise_insertSorted le htrans htot a (insertionSortB le t)
        (pairwise_insertionSortB le htrans htot t)

theorem lexLeb_total : ∀ as bs : List Char, lexLeb as bs = true ∨ lexLeb bs as = true
  | [], _ => Or.inl rfl
  | _ :: _, [] => Or.inr rfl
  | a :: as, b :: bs => by
      unfold lexLeb
      by_cases h : a.toNat = b.toNat
      · rw [if_pos h, if_pos h.symm]
        exact lexLeb_total as bs
      · have h2 : ¬ b.toNat = a.toNat := fun e => h e.symm
        rw [if_neg h, if_neg h2]
        rcases Nat.lt_or_ge a.toNat b.toNat with hlt | hge
        · exact Or.inl (decide_eq_true hlt)
        · exact Or.inr (decide_eq_true (Nat.lt_of_le_of_ne hge h2))

theorem lexLeb_trans : ∀ as bs cs : List Char,
    lexLeb as bs = true → lexLeb bs cs = true → lexLeb as cs = true
  | [], _, _, _, _ => rfl
  | _ :: _, [], _, h1, _ => by simp [lexLeb] at h1
  | _ :: _, _ :: _, [], _, h2 => by simp [lexLeb] at h2
  | a :: as, b :: bs, c :: cs, h1, h2 => by
      unfold lexLeb at h1 h2 ⊢
      by_cases e1 : a.toNat = b.toNat
      · rw [if_pos e1] at h1
        by_cases e2 : b.toNat = c.toNat
        · rw [if_pos e2] at h2
          rw [if_pos (e1.trans e2)]
          exact lexLeb_trans as bs cs h1 h2
        · rw [if_neg e2, decide_eq_true_eq] at h2
          have hac : a.toNat < c.toNat := by rw [e1]; exact h2
          rw [if_neg (Nat.ne_of_lt hac)]
          exact decide_eq_true hac
      · rw [if_neg e1, decide_eq_true_eq] at h1
        by_cases e2 : b.toNat = c.toNat
        · have hac : a.toNat < c.toNat := by rw [← e2]; exact h1
          rw [if_neg (Nat.ne_of_lt hac)]
          exact decide_eq_true hac
        · rw [if_neg e2, decide_eq_true_eq] at h2
          have hac : a.toNat < c.toNat := Nat.lt_trans h1 h2
          rw [if_neg (Nat.ne_of_lt hac)]
          exact decide_eq_true hac

theorem strLe_total (a b : String) : strLe a b = true ∨ strLe b a = true :=
  lexLeb_total a.data b.data

theorem strLe_trans (a b c : String) (h1 : strLe a b = true) (h2 : strLe b c = true) :
    strLe a c = true :=
  lexLeb_trans a.data b.data c.data h1 h2

theorem mem_dropDuplicatesFirst : ∀ l : List String, ∀ x : String,
    x ∈ dropDuplicatesFirst l ↔ x ∈ l
  | [], x => Iff.rfl
  | a :: t, x => by
      unfold dropDuplicatesFirst
      constructor
      · intro hx
        rcases List.mem_cons.mp hx with rfl | hx
        · exact List.mem_cons_self _ _
        · exact List.mem_cons_of_mem a
            ((mem_dropDuplicatesFirst t x).mp (List.mem_filter.mp hx).1)
      · intro hx
        rcases List.mem_cons.mp hx with rfl | hx
        · exact List.mem_cons_self _ _
        · by_cases hxa : x = a
          · exact hxa ▸ List.mem_cons_self _ _
          · refine List.mem_cons_of_mem a (List.mem_filter.mpr ⟨?_, ?_⟩)
            · exact (mem_dropDuplicatesFirst t x).mpr hx
            · exact bne_iff_ne.mpr hxa

theorem nodup_dropDuplicatesFirst : ∀ l : List String, (dropDuplicatesFirst l).Nodup
  | [] => List.nodup_nil
  | a :: t => by
      unfold dropDuplicatesFirst
      refine List.nodup_cons.mpr ⟨?_, List.Nodup.filter _ (nodup_dropDuplicatesFirst t)⟩
      intro ha
      have := (List.mem_filter.mp ha).2
      exact absurd rfl (bne_iff_ne.mp this)

/-! ### Roster lemmas -/

theorem mem_create_check_table (df_clean : List TaskRecord) (u : String) :
    u ∈ create_check_table df_clean ↔
      (∃ r ∈ df_clean, r.operator_id = some u) ∧ u ≠ "xiao.han.1@jd.com" := by
  unfold create_check_table
  rw [mem_insertionSortB, List.mem_filter, mem_dropDuplicatesFirst, List.mem_filterMap]
  exact and_congr Iff.rfl bne_iff_ne

theorem nodup_create_check_table (df_clean : List TaskRecord) :
    (create_check_table df_clean).Nodup :=
  nodup_insertionSortB _ _ (List.Nodup.filter _ (nodup_dropDuplicatesFirst _))

theorem sorted_create_check_table (df_clean : List TaskRecord) :
    List.Pairwise (fun a b => strLe a b = true) (create_check_table df_clean) :=
  pairwise_insertionSortB strLe strLe_trans strLe_total _

/-! ### Source-cleaner lemmas -/

/-- Missing-column check: `clean_source_data` answers `ok` exactly when every
required column is present, and then the result is the filtered table. -/
theorem clean_source_data_ok (cols : List String) (df : List TaskRecord)
    (excl : List String) (lim : Int)
    (h : requiredColumns.filter (fun c => !(cols.contains c)) = []) :
    clean_source_data cols df excl lim =
      Except.ok
        (let out3 := ((df.filter (fun r => r.operation_type == "采购进货")).filter
            (fun r => r.zone_id != "R")).filter (qtyOk lim)
         let out4 := out3.map (fun r => { r with location_code := stripStr r.location_code })
         if excl.isEmpty then out4
         else out4.filter (fun r => !(excl.contains r.location_code))) := by
  unfold clean_source_data
  rw [h]
  rfl

theorem clean_source_data_error (cols : List String) (df : List TaskRecord)
    (excl : List String) (lim : Int)
    (h : requiredColumns.filter (fun c => !(cols.contains c)) ≠ []) :
    clean_source_data cols df excl lim =
      Except.error (requiredColumns.filter (fun c => !(cols.contains c))) := by
  unfold clean_source_data
  rw [if_neg (fun he => h (List.isEmpty_iff.mp he))]

/-- Membership characterization of the cleaned pool. -/
theorem mem_clean_source_data (cols : List String) (df : List TaskRecord)
    (excl : List String) (lim : Int) (out : List TaskRecord)
    (h : clean_source_data cols df excl lim = Except.ok out) (r : TaskRecord) :
    r ∈ out ↔
      ∃ r0 ∈ df, r = { r0 with location_code := stripStr r0.location_code } ∧
        r0.operation_type = "采购进货" ∧ r0.zone_id ≠ "R" ∧ qtyOk lim r0 = true ∧
        (excl ≠ [] → ¬ stripStr r0.location_code ∈ excl) := by
  by_cases hm : requiredColumns.filter (fun c => !(cols.contains c)) = []
  · rw [clean_source_data_ok cols df excl lim hm] at h
    simp only [Except.ok.injEq] at h
    subst h
    by_cases he : excl.isEmpty
    · rw [if_pos he]
      have hexcl : excl = [] := List.isEmpty_iff.mp he
      subst hexcl
      simp only [List.mem_map, List.mem_filter, beq_iff_eq, bne_iff_ne]
      constructor
      · rintro ⟨r0, ⟨⟨⟨hr0, hop⟩, hz⟩, hq⟩, rfl⟩
        exact ⟨r0, hr0, rfl, hop, hz, hq, fun hne => absurd rfl hne⟩
      · rintro ⟨r0, hr0, rfl, hop, hz, hq, _⟩
        exact ⟨r0, ⟨⟨⟨hr0, hop⟩, hz⟩, hq⟩, rfl⟩
    · rw [if_neg he]
      have hexcl : excl ≠ [] := fun he2 => he (List.isEmpty_iff.mpr he2)
      simp only [List.mem_filter, List.mem_map, beq_iff_eq, bne_iff_ne,
        Bool.not_eq_true']
      constructor
      · rintro ⟨⟨r0, ⟨⟨⟨hr0, hop⟩, hz⟩, hq⟩, rfl⟩, hc⟩
        refine ⟨r0, hr0, rfl, hop, hz, hq, fun _ hmem => ?_⟩
        rw [← Bool.not_eq_true] at hc
        exact hc ((contains_iff_mem excl _).mpr hmem)
      · rintro ⟨r0, hr0, rfl, hop, hz, hq, hni⟩
        refine ⟨⟨r0, ⟨⟨⟨hr0, hop⟩, hz⟩, hq⟩, rfl⟩, ?_⟩
        rw [← Bool.not_eq_true]
        intro hc
        exact hni hexcl ((contains_iff_mem excl _).mp hc)
  · rw [clean_source_data_error cols df excl lim hm] at h
    exact absurd h (by simp)

/-! ### Draw-without-replacement lemmas -/

theorem choiceNoReplace_zero (g : Nat) (arr : List Nat) :
    choiceNoReplace g arr 0 = ([], g) := rfl

theorem choiceNoReplace_succ_of_ne (g : Nat) (arr : List Nat) (n : Nat)
    (h : ¬ arr.length = 0) :
    choiceNoReplace g arr (n + 1) =
      ((arr.get ⟨g % arr.length, Nat.mod_lt g (Nat.pos_of_ne_zero h)⟩) ::
        (choiceNoReplace (rngNext g) (arr.eraseIdx (g % arr.length)) n).1,
       (choiceNoReplace (rngNext g) (arr.eraseIdx (g % arr.length)) n).2) := by
  conv_lhs => rw [choiceNoReplace]
  rw [dif_neg h]

theorem choiceNoReplace_subset : ∀ (n : Nat) (g : Nat) (arr : List Nat),
    ∀ x ∈ (choiceNoReplace g arr n).1, x ∈ arr
  | 0, g, arr => by intro x hx; rw [choiceNoReplace_zero] at hx; exact absurd hx (by simp)
  | n + 1, g, arr => by
      intro x hx
      by_cases h : arr.length = 0
      · unfold choiceNoReplace at hx
        rw [dif_pos h] at hx
        exact absurd hx (by simp)
      · rw [choiceNoReplace_succ_of_ne g arr n h] at hx
        rcases List.mem_cons.mp hx with rfl | hx
        · exact arr.get_mem _ _
        · exact List.eraseIdx_subset arr _
            (choiceNoReplace_subset n (rngNext g) (arr.eraseIdx (g % arr.length)) x hx)

theorem choiceNoReplace_nodup : ∀ (n : Nat) (g : Nat) (arr : List Nat),
    arr.Nodup → (choiceNoReplace g arr n).1.Nodup
  | 0, g, arr, _ => by rw [choiceNoReplace_zero]; exact List.nodup_nil
  | n + 1, g, arr, hnd => by
      by_cases h : arr.length = 0
      · unfold choiceNoReplace
        rw [dif_pos h]
        exact List.nodup_nil
      · rw [choiceNoReplace_succ_of_ne g arr n h]
        refine List.nodup_cons.mpr ⟨?_, choiceNoReplace_nodup n (rngNext g) _ (hnd.eraseIdx _)⟩
        intro hmem
        have hmem2 := choiceNoReplace_subset n (rngNext g) (arr.eraseIdx (g % arr.length)) _ hmem
        rw [List.get_eq_getElem] at hmem2
        rcases List.mem_eraseIdx_iff_getElem.mp hmem2 with ⟨j, hj, hji, hget⟩
        exact hji ((hnd.getElem_inj_iff).mp hget)

theorem choiceNoReplace_length : ∀ (n : Nat) (g : Nat) (arr : List Nat),
    n ≤ arr.length → (choiceNoReplace g arr n).1.length = n
  | 0, g, arr, _ => by simp [choiceNoReplace_zero]
  | n + 1, g, arr, hle => by
      have h : ¬ arr.length = 0 := by omega
      rw [choiceNoReplace_succ_of_ne g arr n h]
      have hlt : g % arr.length < arr.length := Nat.mod_lt g (Nat.pos_of_ne_zero h)
      have herase : (arr.eraseIdx (g % arr.length)).length = arr.length - 1 := by
        rw [List.length_eraseIdx]
        rw [if_pos hlt]
      have : n ≤ (arr.eraseIdx (g % arr.length)).length := by omega
      simp [choiceNoReplace_length n (rngNext g) _ this]

/-! ### Lookup and eligibility lemmas -/

theorem lookup_eq_some_of_mem {α β} [BEq α] [LawfulBEq α] :
    ∀ (l : List (α × β)) (a : α) (b : β),
      (l.map Prod.fst).Nodup → (a, b) ∈ l → l.lookup a = some b
  | [], a, b, _, hm => absurd hm (by simp)
  | (key, v) :: t, a, b, hnd, hm => by
      rcases List.mem_cons.mp hm with heq | hm2
      · have h1 : a = key := congrArg Prod.fst heq
        have h2 : b = v := congrArg Prod.snd heq
        subst h1; subst h2
        rw [List.lookup_cons]
        simp
      · rw [List.map_cons] at hnd
        rcases List.nodup_cons.mp hnd with ⟨hknot, hnd2⟩
        rw [List.lookup_cons]
        cases hbeq : a == key with
        | true =>
            exfalso
            have : a ∈ t.map Prod.fst := List.mem_map.mpr ⟨(a, b), hm2, rfl⟩
            rw [beq_iff_eq.mp hbeq] at this
            exact hknot this
        | false =>
            exact lookup_eq_some_of_mem t a b hnd2 hm2

theorem eligibleFor_operator_ne (excl : List String) (user : String) (r : TaskRecord)
    (h : eligibleFor excl user r = true) : r.operator_id ≠ some user := by
  unfold eligibleFor at h
  simp only [Bool.and_eq_true] at h
  exact bne_iff_ne.mp h.1

theorem eligibleFor_of_operator_none (excl : List String) (user : String) (r : TaskRecord)
    (hmiss : r.operator_id = none) (hexcl : excl = []) :
    eligibleFor excl user r = true := by
  subst hexcl
  unfold eligibleFor
  rw [hmiss]
  rfl

/-! ### Per-group step lemmas -/

theorem sampleStep_cases (excl : List String) (k : Nat)
    (pool : List (Nat × TaskRecord)) (g : Nat) (user : String) :
    (let eligible := pool.filter (fun p => eligibleFor excl user p.2)
     (eligible.isEmpty = true ∧
        sampleStep excl k pool g user = ⟨List.replicate k none, [], some (user, 0), pool, g⟩) ∨
     (eligible.isEmpty = false ∧
        sampleStep excl k pool g user =
          ⟨(((choiceNoReplace g (eligible.map Prod.fst) (min k eligible.length)).1.map
                (lookupLoc eligible)).map some)
              ++ List.replicate (k - min k eligible.length) none,
            (choiceNoReplace g (eligible.map Prod.fst) (min k eligible.length)).1,
            (if min k eligible.length < k
              then some (user, min k eligible.length) else none),
            pool.filter (fun p =>
              !((choiceNoReplace g (eligible.map Prod.fst) (min k eligible.length)).1.contains p.1)),
            (choiceNoReplace g (eligible.map Prod.fst) (min k eligible.length)).2⟩)) := by
  by_cases h : (pool.filter (fun p => eligibleFor excl user p.2)).isEmpty
  · exact Or.inl ⟨h, by unfold sampleStep; rw [if_pos h]⟩
  · exact Or.inr ⟨by simpa using h, by unfold sampleStep; rw [if_neg h]⟩

theorem filterMap_id_map_some {α} (l : List α) : List.filterMap id (l.map some) = l := by
  rw [List.filterMap_map]
  have he : (id ∘ some : α → Option α) = some := rfl
  rw [he, List.filterMap_some]

theorem filterMap_id_replicate_none {α} (n : Nat) :
    List.filterMap id (List.replicate n (none : Option α)) = [] := by
  induction n with
  | zero => rfl
  | succ m ih => rw [List.replicate_succ, List.filterMap_cons]; exact ih

theorem sampleStep_pool_sublist (excl : List String) (k : Nat)
    (pool : List (Nat × TaskRecord)) (g : Nat) (user : String) :
    (sampleStep excl k pool g user).pool.Sublist pool := by
  rcases sampleStep_cases excl k pool g user with ⟨_, heq⟩ | ⟨_, heq⟩
  · rw [heq]
  · rw [heq]
    exact List.filter_sublist pool

theorem sampleStep_drawn_mem (excl : List String) (k : Nat)
    (pool : List (Nat × TaskRecord)) (g : Nat) (user : String) :
    ∀ id ∈ (sampleStep excl k pool g user).drawnIds,
      ∃ r, (id, r) ∈ pool ∧ eligibleFor excl user r = true := by
  intro id hid
  rcases sampleStep_cases excl k pool g user with ⟨_, heq⟩ | ⟨_, heq⟩ <;> rw [heq] at hid
  · exact absurd hid (by simp)
  · have hmem := choiceNoReplace_subset _ _ _ id hid
    rcases List.mem_map.mp hmem with ⟨⟨id2, r⟩, hp, hfst⟩
    rcases List.mem_filter.mp hp with ⟨hpool, helig⟩
    cases hfst
    exact ⟨r, hpool, helig⟩

theorem sampleStep_pool_not_drawn (excl : List String) (k : Nat)
    (pool : List (Nat × TaskRecord)) (g : Nat) (user : String) :
    ∀ p ∈ (sampleStep excl k pool g user).pool,
      p.1 ∉ (sampleStep excl k pool g user).drawnIds := by
  intro p hp hdrawn
  rcases sampleStep_cases excl k pool g user with ⟨_, heq⟩ | ⟨_, heq⟩ <;>
    rw [heq] at hp hdrawn
  · exact absurd hdrawn (by simp)
  · rcases List.mem_filter.mp hp with ⟨_, hnc⟩
    rw [(contains_iff_mem _ _).mpr hdrawn] at hnc
    exact absurd hnc (by simp)

theorem sampleStep_drawn_nodup (excl : List String) (k : Nat)
    (pool : List (Nat × TaskRecord)) (g : Nat) (user : String)
    (hnd : (pool.map Prod.fst).Nodup) :
    (sampleStep excl k pool g user).drawnIds.Nodup := by
  rcases sampleStep_cases excl k pool g user with ⟨_, heq⟩ | ⟨_, heq⟩ <;> rw [heq]
  · exact List.nodup_nil
  · exact choiceNoReplace_nodup _ _ _
      (((List.filter_sublist pool).map Prod.fst).nodup hnd)

theorem sampleStep_pool_keys_nodup (excl : List String) (k : Nat)
    (pool : List (Nat × TaskRecord)) (g : Nat) (user : String)
    (hnd : (pool.map Prod.fst).Nodup) :
    ((sampleStep excl k pool g user).pool.map Prod.fst).Nodup :=
  ((sampleStep_pool_sublist excl k pool g user).map Prod.fst).nodup hnd

theorem sampleStep_filledCount (excl : List String) (k : Nat)
    (pool : List (Nat × TaskRecord)) (g : Nat) (user : String) :
    filledCount (sampleStep excl k pool g user).slots =
      min k (pool.filter (fun p => eligibleFor excl user p.2)).length := by
  rcases sampleStep_cases excl k pool g user with ⟨h, heq⟩ | ⟨h, heq⟩
  · rw [heq]
    unfold filledCount
    dsimp only
    rw [filterMap_id_replicate_none, List.isEmpty_iff.mp h]
    simp
  · rw [heq]
    unfold filledCount
    dsimp only
    rw [List.filterMap_append, filterMap_id_map_some, filterMap_id_replicate_none,
      List.append_nil, List.length_map, choiceNoReplace_length]
    rw [List.length_map]
    exact Nat.min_le_right _ _

theorem sampleStep_slots_length (excl : List String) (k : Nat)
    (pool : List (Nat × TaskRecord)) (g : Nat) (user : String) :
    (sampleStep excl k pool g user).slots.length = k := by
  rcases sampleStep_cases excl k pool g user with ⟨h, heq⟩ | ⟨h, heq⟩ <;> rw [heq]
  · exact List.length_replicate k none
  · rw [List.length_append, List.length_replicate, List.length_map, List.length_map]
    rw [choiceNoReplace_length]
    · have := Nat.min_le_left k
        (pool.filter (fun p => eligibleFor excl user p.2)).length
      omega
    · rw [List.length_map]
      exact Nat.min_le_right _ _

theorem sampleStep_shortage (excl : List String) (k : Nat)
    (pool : List (Nat × TaskRecord)) (g : Nat) (user : String) (hk : 1 ≤ k) :
    (sampleStep excl k pool g user).shortage =
      if filledCount (sampleStep excl k pool g user).slots < k
      then some (user, filledCount (sampleStep excl k pool g user).slots)
      else none := by
  rw [sampleStep_filledCount]
  rcases sampleStep_cases excl k pool g user with ⟨h, heq⟩ | ⟨h, heq⟩
  · rw [heq, List.isEmpty_iff.mp h]
    dsimp only
    simp only [List.length_nil, Nat.min_zero]
    have h0 : 0 < k := hk
    rw [if_pos h0]
  · rw [heq]

theorem sampleStep_slots_decomp (excl : List String) (k : Nat)
    (pool : List (Nat × TaskRecord)) (g : Nat) (user : String) :
    ∃ locs : List String,
      (sampleStep excl k pool g user).slots =
        locs.map some ++ List.replicate (k - locs.length) none ∧ locs.length ≤ k := by
  rcases sampleStep_cases excl k pool g user with ⟨h, heq⟩ | ⟨h, heq⟩ <;> rw [heq]
  · exact ⟨[], by simp, Nat.zero_le k⟩
  · refine ⟨(choiceNoReplace g
      ((pool.filter (fun p => eligibleFor excl user p.2)).map Prod.fst)
      (min k (pool.filter (fun p => eligibleFor excl user p.2)).length)).1.map
        (lookupLoc (pool.filter (fun p => eligibleFor excl user p.2))), ?_, ?_⟩
    · rw [List.length_map, choiceNoReplace_length]
      rw [List.length_map]
      exact Nat.min_le_right _ _
    · rw [List.length_map, choiceNoReplace_length]
      · exact Nat.min_le_left _ _
      · rw [List.length_map]
        exact Nat.min_le_right _ _

theorem sampleStep_codes (df : List TaskRecord) (excl : List String) (k : Nat)
    (pool : List (Nat × TaskRecord)) (g : Nat) (user : String)
    (hsub : ∀ p ∈ pool, p ∈ df.enum) (hnd : (pool.map Prod.fst).Nodup) :
    (sampleStep excl k pool g user).slots.filterMap id =
      (sampleStep excl k pool g user).drawnIds.map (codeAt df) := by
  rcases sampleStep_cases excl k pool g user with ⟨h, heq⟩ | ⟨h, heq⟩
  · rw [heq]
    dsimp only
    rw [filterMap_id_replicate_none]
    rfl
  · rw [heq]
    dsimp only
    rw [List.filterMap_append, filterMap_id_map_some, filterMap_id_replicate_none,
      List.append_nil]
    refine List.map_congr_left ?_
    intro id hid
    have hmem := choiceNoReplace_subset _ _ _ id hid
    rcases List.mem_map.mp hmem with ⟨⟨id2, r⟩, hp, hfst⟩
    cases hfst
    have hlk : (pool.filter (fun p => eligibleFor excl user p.2)).lookup id2 = some r :=
      lookup_eq_some_of_mem _ id2 r
        (((List.filter_sublist pool).map Prod.fst).nodup hnd) hp
    have hpool : (id2, r) ∈ pool := (List.mem_filter.mp hp).1
    have henum : (id2, r) ∈ df.enum := hsub _ hpool
    have hget : df[id2]? = some r := List.mk_mem_enum_iff_getElem?.mp henum
    unfold lookupLoc codeAt
    rw [hlk, List.get?_eq_getElem?, hget]

/-! ### Whole-run loop lemmas -/

theorem sampleLoop_nil (excl : List String) (k : Nat)
    (pool : List (Nat × TaskRecord)) (g : Nat) :
    sampleLoop excl k [] pool g = ([], []) := rfl

theorem sampleLoop_cons (excl : List String) (k : Nat) (user : String)
    (rest : List String) (pool : List (Nat × TaskRecord)) (g : Nat) :
    sampleLoop excl k (user :: rest) pool g =
      (⟨user, (sampleStep excl k pool g user).slots⟩ ::
          (sampleLoop excl k rest (sampleStep excl k pool g user).pool
            (sampleStep excl k pool g user).rng).1,
        (sampleStep excl k pool g user).shortage.toList ++
          (sampleLoop excl k rest (sampleStep excl k pool g user).pool
            (sampleStep excl k pool g user).rng).2) := rfl

theorem drawnTrace_nil (excl : List String) (k : Nat)
    (pool : List (Nat × TaskRecord)) (g : Nat) :
    drawnTrace excl k [] pool g = [] := rfl

theorem drawnTrace_cons (excl : List String) (k : Nat) (user : String)
    (rest : List String) (pool : List (Nat × TaskRecord)) (g : Nat) :
    drawnTrace excl k (user :: rest) pool g =
      (sampleStep excl k pool g user).drawnIds ::
        drawnTrace excl k rest (sampleStep excl k pool g user).pool
          (sampleStep excl k pool g user).rng := rfl

theorem stateAt_zero (excl : List String) (k : Nat) (users : List String)
    (pool : List (Nat × TaskRecord)) (g : Nat) :
    stateAt excl k users pool g 0 = (pool, g) := by
  unfold stateAt
  rw [List.take_zero, List.foldl_nil]

theorem stateAt_succ (excl : List String) (k : Nat) (user : String) (rest : List String)
    (pool : List (Nat × TaskRecord)) (g : Nat) (i : Nat) :
    stateAt excl k (user :: rest) pool g (i + 1) =
      stateAt excl k rest (sampleStep excl k pool g user).pool
        (sampleStep excl k pool g user).rng i := by
  unfold stateAt
  rw [List.take_succ_cons, List.foldl_cons]
  rfl

theorem sampleLoop_map_user (excl : List String) (k : Nat) :
    ∀ (users : List String) (pool : List (Nat × TaskRecord)) (g : Nat),
      (sampleLoop excl k users pool g).1.map SampleRow.user = users
  | [], _, _ => rfl
  | user :: rest, pool, g => by
      rw [sampleLoop_cons, List.map_cons]
      rw [sampleLoop_map_user excl k rest _ _]

theorem sampleLoop_length (excl : List String) (k : Nat) (users : List String)
    (pool : List (Nat × TaskRecord)) (g : Nat) :
    (sampleLoop excl k users pool g).1.length = users.length := by
  have := congrArg List.length (sampleLoop_map_user excl k users pool g)
  rwa [List.length_map] at this

theorem sampleLoop_slots_decomp (excl : List String) (k : Nat) :
    ∀ (users : List String) (pool : List (Nat × TaskRecord)) (g : Nat),
      ∀ row ∈ (sampleLoop excl k users pool g).1,
        ∃ locs : List String,
          row.slots = locs.map some ++ List.replicate (k - locs.length) none ∧
            locs.length ≤ k
  | [], _, _ => by intro row hrow; exact absurd hrow (by simp [sampleLoop_nil])
  | user :: rest, pool, g => by
      intro row hrow
      rw [sampleLoop_cons] at hrow
      rcases List.mem_cons.mp hrow with rfl | hrow
      · exact sampleStep_slots_decomp excl k pool g user
      · exact sampleLoop_slots_decomp excl k rest _ _ row hrow

theorem sampleLoop_slots_length (excl : List String) (k : Nat) :
    ∀ (users : List String) (pool : List (Nat × TaskRecord)) (g : Nat),
      ∀ row ∈ (sampleLoop excl k users pool g).1, row.slots.length = k
  | [], _, _ => by intro row hrow; exact absurd hrow (by simp [sampleLoop_nil])
  | user :: rest, pool, g => by
      intro row hrow
      rw [sampleLoop_cons] at hrow
      rcases List.mem_cons.mp hrow with rfl | hrow
      · exact sampleStep_slots_length excl k pool g user
      · exact sampleLoop_slots_length excl k rest _ _ row hrow

theorem drawnTrace_mem (excl : List String) (k : Nat) :
    ∀ (users : List String) (pool : List (Nat × TaskRecord)) (g : Nat),
      ∀ ids ∈ drawnTrace excl k users pool g, ∀ id ∈ ids, id ∈ pool.map Prod.fst
  | [], _, _ => by intro ids hids; exact absurd hids (by simp [drawnTrace_nil])
  | user :: rest, pool, g => by
      intro ids hids id hid
      rw [drawnTrace_cons] at hids
      rcases List.mem_cons.mp hids with rfl | hids
      · rcases sampleStep_drawn_mem excl k pool g user id hid with ⟨r, hpool, _⟩
        exact List.mem_map.mpr ⟨(id, r), hpool, rfl⟩
      · have hmem := drawnTrace_mem excl k rest _ _ ids hids id hid
        rcases List.mem_map.mp hmem with ⟨p, hp, rfl⟩
        exact List.mem_map.mpr
          ⟨p, (sampleStep_pool_sublist excl k pool g user).subset hp, rfl⟩

theorem drawnTrace_flatten_nodup (excl : List String) (k : Nat) :
    ∀ (users : List String) (pool : List (Nat × TaskRecord)) (g : Nat),
      (pool.map Prod.fst).Nodup → (drawnTrace excl k users pool g).flatten.Nodup
  | [], _, _, _ => by rw [drawnTrace_nil]; exact List.nodup_nil
  | user :: rest, pool, g, hnd => by
      rw [drawnTrace_cons, List.flatten_cons]
      refine List.nodup_append.mpr
        ⟨sampleStep_drawn_nodup excl k pool g user hnd,
         drawnTrace_flatten_nodup excl k rest _ _
           (sampleStep_pool_keys_nodup excl k pool g user hnd), ?_⟩
      intro id hid1 hid2
      rcases List.mem_flatten.mp hid2 with ⟨ids, hids, hidin⟩
      have hmem := drawnTrace_mem excl k rest _ _ ids hids id hidin
      rcases List.mem_map.mp hmem with ⟨p, hp, rfl⟩
      exact sampleStep_pool_not_drawn excl k pool g user p hp hid1

theorem sampleLoop_codes (df : List TaskRecord) (excl : List String) (k : Nat) :
    ∀ (users : List String) (pool : List (Nat × TaskRecord)) (g : Nat),
      (∀ p ∈ pool, p ∈ df.enum) → (pool.map Prod.fst).Nodup →
        (sampleLoop excl k users pool g).1.map (fun row => row.slots.filterMap id) =
          (drawnTrace excl k users pool g).map (List.map (codeAt df))
  | [], _, _, _, _ => rfl
  | user :: rest, pool, g, hsub, hnd => by
      rw [sampleLoop_cons, drawnTrace_cons, List.map_cons, List.map_cons]
      refine congrArg₂ List.cons ?_ ?_
      · exact sampleStep_codes df excl k pool g user hsub hnd
      · exact sampleLoop_codes df excl k rest _ _
          (fun p hp => hsub p ((sampleStep_pool_sublist excl k pool g user).subset hp))
          (sampleStep_pool_keys_nodup excl k pool g user hnd)

theorem sampleLoop_filledCount (excl : List String) (k : Nat) :
    ∀ (users : List String) (pool : List (Nat × TaskRecord)) (g : Nat) (i : Nat),
      i < users.length →
        filledCount ((sampleLoop excl k users pool g).1.getD i ⟨"", []⟩).slots =
          min k ((stateAt excl k users pool g i).1.filter
            (fun p => eligibleFor excl (users.getD i "") p.2)).length
  | [], _, _, i, hi => absurd hi (by simp)
  | user :: rest, pool, g, 0, _ => by
      rw [sampleLoop_cons, stateAt_zero]
      rw [List.getD_cons_zero, List.getD_cons_zero]
      exact sampleStep_filledCount excl k pool g user
  | user :: rest, pool, g, i + 1, hi => by
      rw [sampleLoop_cons, stateAt_succ]
      rw [List.getD_cons_succ, List.getD_cons_succ]
      exact sampleLoop_filledCount excl k rest _ _ i (by simpa using hi)

theorem sampleLoop_shortage (excl : List String) (k : Nat) (hk : 1 ≤ k) :
    ∀ (users : List String) (pool : List (Nat × TaskRecord)) (g : Nat),
      (sampleLoop excl k users pool g).2 =
        ((sampleLoop excl k users pool g).1.map
          (fun row => (row.user, filledCount row.slots))).filter
            (fun p => decide (p.2 < k))
  | [], _, _ => rfl
  | user :: rest, pool, g => by
      rw [sampleLoop_cons]
      dsimp only
      rw [List.map_cons, List.filter_cons]
      rw [sampleStep_shortage excl k pool g user hk]
      by_cases hlt : filledCount (sampleStep excl k pool g user).slots < k
      · rw [if_pos hlt]
        rw [if_pos (by simpa using hlt)]
        rw [sampleLoop_shortage excl k hk rest _ _]
        rfl
      · rw [if_neg hlt]
        rw [if_neg (by simpa using hlt)]
        rw [sampleLoop_shortage excl k hk rest _ _]
        rfl

theorem drawnTrace_operator (df : List TaskRecord) (excl : List String) (k : Nat) :
    ∀ (users : List String) (pool : List (Nat × TaskRecord)) (g : Nat),
      (∀ p ∈ pool, p ∈ df.enum) →
        ∀ i : Nat, ∀ id ∈ (drawnTrace excl k users pool g).getD i [],
          ∀ r : TaskRecord, df.get? id = some r →
            r.operator_id ≠ some (users.getD i "")
  | [], _, _, _, i => by intro id hid; rw [drawnTrace_nil] at hid; simp at hid
  | user :: rest, pool, g, hsub, 0 => by
      intro id hid r hr
      rw [drawnTrace_cons, List.getD_cons_zero] at hid
      rw [List.getD_cons_zero]
      rcases sampleStep_drawn_mem excl k pool g user id hid with ⟨r2, hpool, helig⟩
      have henum : (id, r2) ∈ df.enum := hsub _ hpool
      have hget : df[id]? = some r2 := List.mk_mem_enum_iff_getElem?.mp henum
      rw [List.get?_eq_getElem?, hget] at hr
      injection hr with hr2
      rw [← hr2]
      exact eligibleFor_operator_ne excl user r2 helig
  | user :: rest, pool, g, hsub, i + 1 => by
      intro id hid r hr
      rw [drawnTrace_cons, List.getD_cons_succ] at hid
      rw [List.getD_cons_succ]
      exact drawnTrace_operator df excl k rest _ _
        (fun p hp => hsub p ((sampleStep_pool_sublist excl k pool g user).subset hp))
        i id hid r hr

theorem enum_keys_nodup (df : List TaskRecord) : (df.enum.map Prod.fst).Nodup := by
  rw [List.enum_map_fst]
  exact List.nodup_range _

theorem codeAt_inj (df : List TaskRecord)
    (hcodes : (df.map (fun r => stripStr r.location_code)).Nodup)
    (i j : Nat) (hi : i ∈ df.enum.map Prod.fst) (hj : j ∈ df.enum.map Prod.fst)
    (heq : codeAt df i = codeAt df j) : i = j := by
  rw [List.enum_map_fst, List.mem_range] at hi hj
  unfold codeAt at heq
  rw [List.get?_eq_getElem?, List.get?_eq_getElem?,
    List.getElem?_eq_getElem hi, List.getElem?_eq_getElem hj] at heq
  have hmi : i < (df.map (fun r => stripStr r.location_code)).length := by
    rw [List.length_map]; exact hi
  have hmj : j < (df.map (fun r => stripStr r.location_code)).length := by
    rw [List.length_map]; exact hj
  refine (@List.Nodup.getElem_inj_iff _ _ hcodes i hmi j hmj).mp ?_
  rw [List.getElem_map, List.getElem_map]
  exact heq

/-! ### Claim theorems -/

/-- C1, counterexample.  The frozen claim says no location code ever appears
in more than one group's sample.  The without-replacement bookkeeping of
`sample_locations_to_check_table` is at the level of pool rows, not code
strings: with two cleaned rows that share the location code L1 (written by
two different operators), group a@x draws the row written by b@x and group
b@x draws the row written by a@x, so the code L1 appears in both groups'
samples in the same run. -/
theorem duplicate_code_in_two_groups :
    create_check_table
        [⟨"采购进货", "A", some 1, "L1", some "a@x"⟩,
         ⟨"采购进货", "B", some 1, "L1", some "b@x"⟩] = ["a@x", "b@x"] ∧
    (sample_locations_to_check_table
        [⟨"采购进货", "A", some 1, "L1", some "a@x"⟩,
         ⟨"采购进货", "B", some 1, "L1", some "b@x"⟩]
        ["a@x", "b@x"] [] 1 42).1.map (fun row => (row.user, row.slots)) =
      [("a@x", [some "L1"]), ("b@x", [some "L1"])] := by
  constructor
  · decide
  · decide

/-- C1 (amended): the sampler consumes pool ROWS globally without
replacement — the row ids drawn over a whole run are pairwise distinct, so
no row occurrence is ever drawn twice, within a group or across groups.
Consequently, when the (stripped) location codes of the cleaned pool are
pairwise distinct, no location code appears twice in the run's output —
neither inside one group's sample nor across two groups' samples. -/
theorem sampler_global_without_replacement (df : List TaskRecord) (users : List String)
    (excl : List String) (k : Nat) (seed : Nat) :
    (drawnTrace excl k users df.enum seed).flatten.Nodup ∧
      ((df.map (fun r => stripStr r.location_code)).Nodup →
        ((sample_locations_to_check_table df users excl k seed).1.map
          (fun row => row.slots.filterMap id)).flatten.Nodup) := by
  constructor
  · exact drawnTrace_flatten_nodup excl k users df.enum seed (enum_keys_nodup df)
  · intro hcodes
    have hlink : (sample_locations_to_check_table df users excl k seed).1.map
        (fun row => row.slots.filterMap id) =
        (drawnTrace excl k users df.enum seed).map (List.map (codeAt df)) :=
      sampleLoop_codes df excl k users df.enum seed (fun _ h => h) (enum_keys_nodup df)
    rw [hlink, ← List.map_flatten]
    refine List.Nodup.map_on ?_
      (drawnTrace_flatten_nodup excl k users df.enum seed (enum_keys_nodup df))
    intro i hi j hj hij
    rcases List.mem_flatten.mp hi with ⟨ids1, hids1, hi1⟩
    rcases List.mem_flatten.mp hj with ⟨ids2, hids2, hj2⟩
    exact codeAt_inj df hcodes i j
      (drawnTrace_mem excl k users df.enum seed ids1 hids1 i hi1)
      (drawnTrace_mem excl k users df.enum seed ids2 hids2 j hj2) hij

/-- C1 witness: a concrete run with distinct location codes, where both the
row-level and the code-level no-repetition conclusions hold. -/
theorem sampler_global_without_replacement_witness :
    (drawnTrace [] 1 ["a@x", "b@x"]
        ([⟨"采购进货", "A", some 1, "L1", some "a@x"⟩,
          ⟨"采购进货", "B", some 1, "L2", some "b@x"⟩] : List TaskRecord).enum
        42).flatten.Nodup ∧
      ((sample_locations_to_check_table
          [⟨"采购进货", "A", some 1, "L1", some "a@x"⟩,
           ⟨"采购进货", "B", some 1, "L2", some "b@x"⟩]
          ["a@x", "b@x"] [] 1 42).1.map
        (fun row => row.slots.filterMap id)).flatten.Nodup := by
  have h := sampler_global_without_replacement
    [⟨"采购进货", "A", some 1, "L1", some "a@x"⟩,
     ⟨"采购进货", "B", some 1, "L2", some "b@x"⟩]
    ["a@x", "b@x"] [] 1 42
  exact ⟨h.1, h.2 (by decide)⟩

/-- C2: a run is a deterministic function of its inputs and the seed: two
runs of `sample_locations_to_check_table` on equal cleaned pools, rosters,
exclusion sets, sample sizes and seeds return identical output — the whole
pair of sample table and shortage table, bit for bit.  The embedding is
pure exactly because the Python function consults a single seeded generator
and no other source of nondeterminism. -/
theorem sampler_deterministic (df1 df2 : List TaskRecord) (us1 us2 : List String)
    (excl1 excl2 : List String) (k1 k2 seed1 seed2 : Nat)
    (hdf : df1 = df2) (hus : us1 = us2) (hexcl : excl1 = excl2)
    (hk : k1 = k2) (hseed : seed1 = seed2) :
    sample_locations_to_check_table df1 us1 excl1 k1 seed1 =
      sample_locations_to_check_table df2 us2 excl2 k2 seed2 := by
  subst hdf; subst hus; subst hexcl; subst hk; subst hseed
  rfl

/-- C2 witness: the determinism theorem applied at a concrete run. -/
theorem sampler_deterministic_witness :
    sample_locations_to_check_table
        [⟨"采购进货", "A", some 1, "L1", some "a@x"⟩] ["b@x"] [] 2 7 =
      sample_locations_to_check_table
        [⟨"采购进货", "A", some 1, "L1", some "a@x"⟩] ["b@x"] [] 2 7 :=
  sampler_deterministic _ _ _ _ _ _ _ _ _ _ rfl rfl rfl rfl rfl

/-- C3: for every roster entry the sampler fills exactly
`min k |eligible at that turn|` slots (so never more than `k`), where the
eligible set is computed from the working pool at that group's turn; the
shortage table is exactly the sorted list of the pairs `(group, n)` with
`n < k` filled slots — in particular a group whose eligible set is empty
gets `0` filled slots and a shortage entry `(group, 0)`.  The sampler is a
total function producing one output row per roster entry (no draw can
fail). -/
theorem sampler_fill_and_shortage (df : List TaskRecord) (users : List String)
    (excl : List String) (k : Nat) (seed : Nat) (hk : 1 ≤ k) :
    ((sample_locations_to_check_table df users excl k seed).1.map SampleRow.user
        = users) ∧
    (∀ row ∈ (sample_locations_to_check_table df users excl k seed).1,
        filledCount row.slots ≤ k ∧ row.slots.length = k) ∧
    (∀ i : Nat, i < users.length →
        filledCount
            ((sample_locations_to_check_table df users excl k seed).1.getD i
              ⟨"", []⟩).slots =
          min k ((stateAt excl k users df.enum seed i).1.filter
            (fun p => eligibleFor excl (users.getD i "") p.2)).length) ∧
    ((sample_locations_to_check_table df users excl k seed).2 =
        insertionSortB (fun a b => decide (a.2 ≤ b.2))
          (((sample_locations_to_check_table df users excl k seed).1.map
            (fun row => (row.user, filledCount row.slots))).filter
              (fun p => decide (p.2 < k)))) := by
  refine ⟨sampleLoop_map_user excl k users df.enum seed, ?_, ?_, ?_⟩
  · intro row hrow
    constructor
    · have h1 := List.length_filterMap_le (id : Option String → Option String) row.slots
      have h2 := sampleLoop_slots_length excl k users df.enum seed row hrow
      unfold filledCount
      omega
    · exact sampleLoop_slots_length excl k users df.enum seed row hrow
  · intro i hi
    exact sampleLoop_filledCount excl k users df.enum seed i hi
  · exact congrArg (insertionSortB (fun a b => decide (a.2 ≤ b.2)))
      (sampleLoop_shortage excl k hk users df.enum seed)

/-- C3 witness: the fill/shortage theorem applied to a concrete run with a
shortage (group c@x has a single eligible row while k = 2). -/
theorem sampler_fill_and_shortage_witness :
    ((sample_locations_to_check_table
        [⟨"采购进货", "A", some 1, "L1", some "a@x"⟩,
         ⟨"采购进货", "B", some 2, "L2", some "a@x"⟩,
         ⟨"采购进货", "C", some 3, "L3", some "b@x"⟩,
         ⟨"采购进货", "D", some 4, "L4", some "c@x"⟩]
        ["a@x", "b@x", "c@x"] [] 2 42).1.map SampleRow.user = ["a@x", "b@x", "c@x"]) ∧
    ((sample_locations_to_check_table
        [⟨"采购进货", "A", some 1, "L1", some "a@x"⟩,
         ⟨"采购进货", "B", some 2, "L2", some "a@x"⟩,
         ⟨"采购进货", "C", some 3, "L3", some "b@x"⟩,
         ⟨"采购进货", "D", some 4, "L4", some "c@x"⟩]
        ["a@x", "b@x", "c@x"] [] 2 42).2 =
      insertionSortB (fun a b => decide (a.2 ≤ b.2))
        (((sample_locations_to_check_table
            [⟨"采购进货", "A", some 1, "L1", some "a@x"⟩,
             ⟨"采购进货", "B", some 2, "L2", some "a@x"⟩,
             ⟨"采购进货", "C", some 3, "L3", some "b@x"⟩,
             ⟨"采购进货", "D", some 4, "L4", some "c@x"⟩]
            ["a@x", "b@x", "c@x"] [] 2 42).1.map
          (fun row => (row.user, filledCount row.slots))).filter
            (fun p => decide (p.2 < 2)))) := by
  have h := sampler_fill_and_shortage
    [⟨"采购进货", "A", some 1, "L1", some "a@x"⟩,
     ⟨"采购进货", "B", some 2, "L2", some "a@x"⟩,
     ⟨"采购进货", "C", some 3, "L3", some "b@x"⟩,
     ⟨"采购进货", "D", some 4, "L4", some "c@x"⟩]
    ["a@x", "b@x", "c@x"] [] 2 42 (by decide)
  exact ⟨h.1, h.2.2.2⟩

/-- C4: self-exclusion.  Every pool row drawn at the turn of group `g`
satisfies the eligibility mask, whose first conjunct is that the row's
operator differs from `g`; row ids refer to positions of the original
cleaned pool, so the drawn record, looked up in the original cleaned pool,
never has `operator_id = g`.  The second conjunct links the trace of drawn
row ids to the emitted sample table: the filled slots of row `i` are
exactly the (stripped) location codes of the rows whose ids were drawn at
turn `i`. -/
theorem sampler_self_exclusion (df : List TaskRecord) (users : List String)
    (excl : List String) (k : Nat) (seed : Nat) :
    (∀ i : Nat, ∀ id ∈ (drawnTrace excl k users df.enum seed).getD i [],
        ∀ r : TaskRecord, df.get? id = some r →
          r.operator_id ≠ some (users.getD i "")) ∧
    ((sample_locations_to_check_table df users excl k seed).1.map
        (fun row => row.slots.filterMap id) =
      (drawnTrace excl k users df.enum seed).map (List.map (codeAt df))) := by
  constructor
  · exact drawnTrace_operator df excl k users df.enum seed (fun _ h => h)
  · exact sampleLoop_codes df excl k users df.enum seed (fun _ h => h) (enum_keys_nodup df)

/-- C4 witness: in a concrete run, the row drawn for the first group
(row id 2, the only row not written by a@x) has an operator different from
a@x. -/
theorem sampler_self_exclusion_witness :
    (⟨"采购进货", "C", some 3, "L3", some "b@x"⟩ : TaskRecord).operator_id ≠
      some ((["a@x", "b@x"] : List String).getD 0 "") := by
  have h := sampler_self_exclusion
    [⟨"采购进货", "A", some 1, "L1", some "a@x"⟩,
     ⟨"采购进货", "B", some 2, "L2", some "a@x"⟩,
     ⟨"采购进货", "C", some 3, "L3", some "b@x"⟩]
    ["a@x", "b@x"] [] 1 42
  exact h.1 0 2 (by decide) _ (by decide)

/-- C5, counterexample.  The claim says any roster candidate whose string
form starts with the blacklisted prefix (for example any value starting
with the five characters of "jdhk" followed by an underscore) is removed
from the roster.  `create_check_table` applies no such rule — its only
blacklist is the exact-match account — so a cleaned pool whose sole
operator is "jdhk_anything" produces a roster containing exactly that
value, although its first five characters spell the blacklisted start. -/
theorem jdhk_value_kept_in_roster :
    create_check_table [⟨"采购进货", "A", some 1, "L1", some "jdhk_anything"⟩] =
        ["jdhk_anything"] ∧
      ("jdhk_anything" : String).data.take 5 = ("jdhk_" : String).data := by
  constructor
  · decide
  · decide

/-- C5 (amended): the Group Roster is exactly the set of distinct operator
values present in the cleaned pool minus the single exact-match blacklisted
account "xiao.han.1@jd.com", without duplicates, sorted in ascending
codepoint-lexical order.  No prefix-based blacklist is applied: a value
such as "jdhk_anything" stays in the roster. -/
theorem roster_exact_blacklist_sorted (df_clean : List TaskRecord) :
    (∀ u : String, u ∈ create_check_table df_clean ↔
        ((∃ r ∈ df_clean, r.operator_id = some u) ∧ u ≠ "xiao.han.1@jd.com")) ∧
    (create_check_table df_clean).Nodup ∧
    List.Pairwise (fun a b => strLe a b = true) (create_check_table df_clean) :=
  ⟨mem_create_check_table df_clean, nodup_create_check_table df_clean,
    sorted_create_check_table df_clean⟩

/-- C5 witness: the amended roster theorem applied to a concrete pool
containing the blacklisted account, a duplicate, and an unsorted pair. -/
theorem roster_exact_blacklist_sorted_witness :
    ("a@x" ∈ create_check_table
        [⟨"采购进货", "A", some 1, "L1", some "b@x"⟩,
         ⟨"采购进货", "B", some 2, "L2", some "a@x"⟩,
         ⟨"采购进货", "C", some 3, "L3", some "a@x"⟩,
         ⟨"采购进货", "D", some 4, "L4", some "xiao.han.1@jd.com"⟩] ↔
      ((∃ r ∈ [(⟨"采购进货", "A", some 1, "L1", some "b@x"⟩ : TaskRecord),
               ⟨"采购进货", "B", some 2, "L2", some "a@x"⟩,
               ⟨"采购进货", "C", some 3, "L3", some "a@x"⟩,
               ⟨"采购进货", "D", some 4, "L4", some "xiao.han.1@jd.com"⟩],
          r.operator_id = some "a@x") ∧ ("a@x" : String) ≠ "xiao.han.1@jd.com")) ∧
    (create_check_table
        [⟨"采购进货", "A", some 1, "L1", some "b@x"⟩,
         ⟨"采购进货", "B", some 2, "L2", some "a@x"⟩,
         ⟨"采购进货", "C", some 3, "L3", some "a@x"⟩,
         ⟨"采购进货", "D", some 4, "L4", some "xiao.han.1@jd.com"⟩]).Nodup := by
  have h := roster_exact_blacklist_sorted
    [⟨"采购进货", "A", some 1, "L1", some "b@x"⟩,
     ⟨"采购进货", "B", some 2, "L2", some "a@x"⟩,
     ⟨"采购进货", "C", some 3, "L3", some "a@x"⟩,
     ⟨"采购进货", "D", some 4, "L4", some "xiao.han.1@jd.com"⟩]
  exact ⟨h.1 "a@x", h.2.1⟩

/-- C6: when the schema check passes, the cleaned pool contains exactly the
input rows whose operation type equals the sentinel, whose zone is not "R",
whose quantity parsed and is at most the ceiling, and — only when the
exclusion set is non-empty — whose stripped location code is not excluded;
each surviving row is carried over unchanged except for the stripping of
its location code.  When the exclusion set is empty the membership
predicate over it is skipped entirely: the pool is the plain
type/zone/quantity filter and no row is dropped for discrepancy reasons. -/
theorem cleaned_pool_characterization (cols : List String) (df : List TaskRecord)
    (excl : List String) (lim : Int)
    (hcols : requiredColumns.filter (fun c => !(cols.contains c)) = []) :
    ∃ out, clean_source_data cols df excl lim = Except.ok out ∧
      (∀ r : TaskRecord, r ∈ out ↔
        ∃ r0 ∈ df, r = { r0 with location_code := stripStr r0.location_code } ∧
          r0.operation_type = "采购进货" ∧ r0.zone_id ≠ "R" ∧ qtyOk lim r0 = true ∧
          (excl ≠ [] → ¬ stripStr r0.location_code ∈ excl)) ∧
      (excl = [] → out =
        (((df.filter (fun r => r.operation_type == "采购进货")).filter
            (fun r => r.zone_id != "R")).filter (qtyOk lim)).map
          (fun r => { r with location_code := stripStr r.location_code })) := by
  obtain ⟨out, hout⟩ : ∃ out, clean_source_data cols df excl lim = Except.ok out :=
    ⟨_, clean_source_data_ok cols df excl lim hcols⟩
  refine ⟨out, hout, fun r => mem_clean_source_data cols df excl lim out hout r, ?_⟩
  intro hexcl
  subst hexcl
  rw [clean_source_data_ok cols df [] lim hcols] at hout
  injection hout with h2
  rw [← h2]
  rfl

/-- C6 witness: a schema-complete concrete input on which the
characterization theorem applies (the row is dropped: zone "R"). -/
theorem cleaned_pool_characterization_witness :
    ∃ out, clean_source_data requiredColumns
        [⟨"采购进货", "R", some 1, "L1", some "a@x"⟩] [] 50 = Except.ok out := by
  obtain ⟨out, hout, -, -⟩ := cleaned_pool_characterization requiredColumns
    [⟨"采购进货", "R", some 1, "L1", some "a@x"⟩] [] 50 (by decide)
  exact ⟨out, hout⟩

/-- C7, counterexample.  The claim says all string fields are trimmed
before the inclusion predicates are evaluated, so a row whose operation
type differs from the sentinel only by surrounding whitespace would match
the sentinel and be kept.  `clean_source_data` compares the operation type
untrimmed: the row with operation type " 采购进货" (leading space) is
dropped even though its stripped value equals the sentinel. -/
theorem whitespace_operation_type_dropped :
    clean_source_data requiredColumns
        [⟨" 采购进货", "A", some 1, "L1", some "u@x"⟩] [] 50 = Except.ok [] ∧
      stripStr " 采购进货" = "采购进货" := by
  refine ⟨rfl, ?_⟩
  decide

/-- C7 (amended): only the location-code field is trimmed, and only after
the operation-type, zone and quantity predicates have been evaluated on the
raw values; the exclusion-set predicate then sees the stripped location
code.  Operation type, zone, quantity and operator are carried into the
cleaned pool unchanged and are compared untrimmed. -/
theorem only_location_code_trimmed (cols : List String) (df : List TaskRecord)
    (excl : List String) (lim : Int) (out : List TaskRecord)
    (h : clean_source_data cols df excl lim = Except.ok out) :
    (∀ r ∈ out, ∃ r0 ∈ df,
        r.operation_type = r0.operation_type ∧ r.zone_id = r0.zone_id ∧
        r.quantity = r0.quantity ∧ r.operator_id = r0.operator_id ∧
        r.location_code = stripStr r0.location_code ∧
        r0.operation_type = "采购进货" ∧ r0.zone_id ≠ "R" ∧ qtyOk lim r0 = true) ∧
    (excl ≠ [] → ∀ r ∈ out, ¬ r.location_code ∈ excl) := by
  constructor
  · intro r hr
    rcases (mem_clean_source_data cols df excl lim out h r).mp hr with
      ⟨r0, hr0, rfl, hop, hz, hq, _⟩
    exact ⟨r0, hr0, rfl, rfl, rfl, rfl, rfl, hop, hz, hq⟩
  · intro hne r hr
    rcases (mem_clean_source_data cols df excl lim out h r).mp hr with
      ⟨r0, hr0, rfl, hop, hz, hq, hni⟩
    exact hni hne

/-- C7 witness: the amended theorem applied to a concrete run, exhibiting
the original row behind a cleaned row whose location code was stripped from
" L1 " to "L1" while the other fields are untouched. -/
theorem only_location_code_trimmed_witness :
    ∃ r0 ∈ [(⟨"采购进货", "A", some 1, " L1 ", some "a@x"⟩ : TaskRecord)],
      ("L1" : String) = stripStr r0.location_code ∧ r0.operation_type = "采购进货" := by
  have h := (only_location_code_trimmed requiredColumns
      [⟨"采购进货", "A", some 1, " L1 ", some "a@x"⟩] [] 50
      [⟨"采购进货", "A", some 1, "L1", some "a@x"⟩] (by rfl)).1
      ⟨"采购进货", "A", some 1, "L1", some "a@x"⟩ (by decide)
  rcases h with ⟨r0, hr0, _, _, _, _, hloc, hop, _, _⟩
  exact ⟨r0, hr0, hloc, hop⟩

/-- C8: `clean_source_data` answers with a schema error exactly when at
least one of the five required columns is absent; the error value
enumerates exactly the missing column names (the required list filtered to
those not present), the check runs before any filtering, and an error run
produces no cleaned rows at all (the `Except.error` branch carries no
partial result). -/
theorem schema_error_iff_missing_column (cols : List String) (df : List TaskRecord)
    (excl : List String) (lim : Int) :
    (requiredColumns.filter (fun c => !(cols.contains c)) ≠ [] →
        clean_source_data cols df excl lim =
          Except.error (requiredColumns.filter (fun c => !(cols.contains c)))) ∧
    (requiredColumns.filter (fun c => !(cols.contains c)) = [] →
        ∃ out, clean_source_data cols df excl lim = Except.ok out) ∧
    ((∃ e, clean_source_data cols df excl lim = Except.error e) ↔
        ∃ c ∈ requiredColumns, ¬ c ∈ cols) := by
  refine ⟨clean_source_data_error cols df excl lim, ?_, ?_, ?_⟩
  · intro h
    exact ⟨_, clean_source_data_ok cols df excl lim h⟩
  · rintro ⟨e, he⟩
    by_cases hm : requiredColumns.filter (fun c => !(cols.contains c)) = []
    · rw [clean_source_data_ok cols df excl lim hm] at he
      exact absurd he (by simp)
    · rcases List.exists_mem_of_ne_nil _ hm with ⟨c, hc⟩
      rcases List.mem_filter.mp hc with ⟨hcreq, hcb⟩
      refine ⟨c, hcreq, fun hmem => ?_⟩
      rw [(contains_iff_mem cols c).mpr hmem] at hcb
      exact absurd hcb (by simp)
  · rintro ⟨c, hcreq, hcnot⟩
    have hcb : (!(cols.contains c)) = true := by
      rw [Bool.not_eq_true']
      exact Bool.eq_false_iff.mpr (fun hc => hcnot ((contains_iff_mem cols c).mp hc))
    have hm : requiredColumns.filter (fun c => !(cols.contains c)) ≠ [] :=
      List.ne_nil_of_mem (List.mem_filter.mpr ⟨hcreq, hcb⟩)
    exact ⟨_, clean_source_data_error cols df excl lim hm⟩

/-- C8 witness: with the 储区号 column absent the cleaner fails with a
schema error naming exactly that column. -/
theorem schema_error_iff_missing_column_witness :
    clean_source_data ["作业类型", "上架量", "储位编码", "上架员"] [] [] 50 =
      Except.error ["储区号"] := by
  have h := (schema_error_iff_missing_column
    ["作业类型", "上架量", "储位编码", "上架员"] [] [] 50).1 (by decide)
  have h2 : requiredColumns.filter
      (fun c => !((["作业类型", "上架量", "储位编码", "上架员"] : List String).contains c)) =
      ["储区号"] := by decide
  rw [h2] at h
  exact h

/-- C9: the finalizer adds to each sample row the comma-join of its filled
slot values: per group, the drawn location codes in the order drawn, with
every `none` slot and every blank-after-stripping value skipped; the slots
themselves are the drawn codes followed by `none` padding, the row is kept
unchanged next to the new field, and no reordering or deduplication
happens. -/
theorem finalizer_joins_filled_slots (df : List TaskRecord) (users : List String)
    (excl : List String) (k : Nat) (seed : Nat) :
    (add_inventory_content_column
        (sample_locations_to_check_table df users excl k seed).1).length =
      (sample_locations_to_check_table df users excl k seed).1.length ∧
    ∀ i : Nat, i < (sample_locations_to_check_table df users excl k seed).1.length →
      ((add_inventory_content_column
          (sample_locations_to_check_table df users excl k seed).1).getD i
            (⟨"", []⟩, "")).1 =
        (sample_locations_to_check_table df users excl k seed).1.getD i ⟨"", []⟩ ∧
      ∃ locs : List String,
        ((sample_locations_to_check_table df users excl k seed).1.getD i
            ⟨"", []⟩).slots =
          locs.map some ++ List.replicate (k - locs.length) none ∧
        locs.length ≤ k ∧
        ((add_inventory_content_column
            (sample_locations_to_check_table df users excl k seed).1).getD i
              (⟨"", []⟩, "")).2 =
          String.intercalate "," (locs.filter (fun s => !(stripStr s == ""))) := by
  have hmap : add_inventory_content_column
      (sample_locations_to_check_table df users excl k seed).1 =
      (sample_locations_to_check_table df users excl k seed).1.map
        (fun row => (row, String.intercalate ","
          ((row.slots.filterMap id).filter (fun s => !(stripStr s == ""))))) := rfl
  constructor
  · rw [hmap, List.length_map]
  · intro i hi
    have hlen : i < (add_inventory_content_column
        (sample_locations_to_check_table df users excl k seed).1).length := by
      rw [hmap, List.length_map]; exact hi
    have hrow : (sample_locations_to_check_table df users excl k seed).1.getD i ⟨"", []⟩ =
        (sample_locations_to_check_table df users excl k seed).1[i] :=
      List.getD_eq_getElem _ _ hi
    have hfin : (add_inventory_content_column
        (sample_locations_to_check_table df users excl k seed).1).getD i (⟨"", []⟩, "") =
        ((sample_locations_to_check_table df users excl k seed).1[i],
          String.intercalate ","
            ((((sample_locations_to_check_table df users excl k seed).1[i]).slots.filterMap
              id).filter (fun s => !(stripStr s == "")))) := by
      rw [hmap, List.getD_eq_getElem _ _ (by rw [List.length_map]; exact hi),
        List.getElem_map]
    rcases sampleLoop_slots_decomp excl k users df.enum seed
        ((sample_locations_to_check_table df users excl k seed).1[i])
        (List.getElem_mem hi) with ⟨locs, hslots, hlocs⟩
    refine ⟨by rw [hfin, hrow], locs, ?_, hlocs, ?_⟩
    · rw [hrow, hslots]
    · rw [hfin]
      dsimp only
      rw [hslots, List.filterMap_append, filterMap_id_map_some,
        filterMap_id_replicate_none, List.append_nil]

/-- C9 witness: the finalizer theorem applied to a concrete run, including
the row-preservation consequence at index 0. -/
theorem finalizer_joins_filled_slots_witness :
    (add_inventory_content_column
        (sample_locations_to_check_table
          [⟨"采购进货", "A", some 1, "L1", some "a@x"⟩] ["b@x"] [] 2 42).1).length =
      (sample_locations_to_check_table
          [⟨"采购进货", "A", some 1, "L1", some "a@x"⟩] ["b@x"] [] 2 42).1.length ∧
    ((add_inventory_content_column
        (sample_locations_to_check_table
          [⟨"采购进货", "A", some 1, "L1", some "a@x"⟩] ["b@x"] [] 2 42).1).getD 0
            (⟨"", []⟩, "")).1 =
      (sample_locations_to_check_table
          [⟨"采购进货", "A", some 1, "L1", some "a@x"⟩] ["b@x"] [] 2 42).1.getD 0
        ⟨"", []⟩ := by
  have h := finalizer_joins_filled_slots
    [⟨"采购进货", "A", some 1, "L1", some "a@x"⟩] ["b@x"] [] 2 42
  exact ⟨h.1, (h.2 0 (by decide)).1⟩

/-- C10: a cleaned-pool row with a missing operator value contributes
nothing to the roster — every roster entry is an operator value actually
present in some row — yet the row itself stays in the initial working pool
and its missing operator compares unequal to every group, so the row
passes the operator-differs conjunct of the eligibility mask for every
group and (when no exclusion set is active) the whole mask. -/
theorem missing_operator_rows_samplable (df_clean : List TaskRecord) (r : TaskRecord)
    (hr : r ∈ df_clean) (hmiss : r.operator_id = none) :
    (∀ u ∈ create_check_table df_clean, ∃ r2 ∈ df_clean, r2.operator_id = some u) ∧
    (∃ i, (i, r) ∈ df_clean.enum) ∧
    (∀ user : String, (r.operator_id != some user) = true) ∧
    (∀ user : String, eligibleFor [] user r = true) := by
  refine ⟨?_, ?_, ?_, ?_⟩
  · intro u hu
    rcases (mem_create_check_table df_clean u).mp hu with ⟨⟨r2, hr2, hop⟩, _⟩
    exact ⟨r2, hr2, hop⟩
  · rcases List.mem_iff_getElem?.mp hr with ⟨i, hi⟩
    exact ⟨i, List.mk_mem_enum_iff_getElem?.mpr hi⟩
  · intro user
    rw [hmiss]
    rfl
  · intro user
    exact eligibleFor_of_operator_none [] user r hmiss rfl

/-- C10 witness: the missing-operator theorem applied to a concrete pool
whose first row has no operator. -/
theorem missing_operator_rows_samplable_witness :
    (∀ u ∈ create_check_table
        [⟨"采购进货", "A", some 1, "L1", none⟩,
         ⟨"采购进货", "B", some 2, "L2", some "a@x"⟩],
      ∃ r2 ∈ [(⟨"采购进货", "A", some 1, "L1", none⟩ : TaskRecord),
              ⟨"采购进货", "B", some 2, "L2", some "a@x"⟩],
        r2.operator_id = some u) ∧
    (∃ i, (i, (⟨"采购进货", "A", some 1, "L1", none⟩ : TaskRecord)) ∈
        ([(⟨"采购进货", "A", some 1, "L1", none⟩ : TaskRecord),
          ⟨"采购进货", "B", some 2, "L2", some "a@x"⟩]).enum) ∧
    (∀ user : String,
      ((⟨"采购进货", "A", some 1, "L1", none⟩ : TaskRecord).operator_id != some user) =
        true) ∧
    (∀ user : String,
      eligibleFor [] user (⟨"采购进货", "A", some 1, "L1", none⟩ : TaskRecord) = true) :=
  missing_operator_rows_samplable
    [⟨"采购进货", "A", some 1, "L1", none⟩, ⟨"采购进货", "B", some 2, "L2", some "a@x"⟩]
    ⟨"采购进货", "A", some 1, "L1", none⟩ (by decide) rfl

end PutawayCheck
